import Mathlib

/-!
Verification of the ranked-retrieval pipeline of a RAG product-search
service (sources: rag_utils.py and app.py).

The external collaborators (sentence-embedding model, Chroma vector index,
MongoDB catalog store) are modelled as explicit inputs: the list of
nearest-neighbour hits returned by the vector index, its document count,
and the catalog contents.  Python floats are modelled as rationals,
Python strings as Lean strings over their character lists (the scanned
character classes cover the ASCII fragment of the Python `\w` and `\s`
classes).  All definitions below are transcribed from the Python source;
definitions whose name ends in `Spec` or `Claimed` instead transcribe a
sentence of the specification, for comparison against the source.
-/

namespace RagSpec

/-- Python `\s` (whitespace) character class, ASCII fragment. -/
def isSpaceChar (c : Char) : Bool := c.isWhitespace

/-- Python `\w` (word) character class, ASCII fragment: alphanumeric or
underscore. -/
def isWordChar (c : Char) : Bool := c.isAlphanum || c == '_'

/-- Models Python `str.lower` on the character list. -/
def pyLowerChars (l : List Char) : List Char := l.map Char.toLower

/-- Models Python `str.lower`. -/
def pyLower (s : String) : String := String.mk (pyLowerChars s.data)

/-- Models Python `str.strip()`: drop leading and trailing whitespace. -/
def pyStrip (l : List Char) : List Char :=
  ((l.dropWhile isSpaceChar).reverse.dropWhile isSpaceChar).reverse

/-- String-level `str.strip()`. -/
def pyStripStr (s : String) : String := String.mk (pyStrip s.data)

/-- One character of `re.sub(r'[^\w\s]', ' ', text)`: a character that is
neither a word character nor whitespace becomes a single space. -/
def punctMap (c : Char) : Char :=
  if !isWordChar c && !isSpaceChar c then ' ' else c

/-- Models `re.sub(r'\s+', ' ', text)`: every maximal run of whitespace
characters collapses to one space. -/
def collapseWS : List Char → List Char
  | [] => []
  | [c] => [if isSpaceChar c then ' ' else c]
  | c :: d :: rest =>
    if isSpaceChar c && isSpaceChar d then collapseWS (d :: rest)
    else (if isSpaceChar c then ' ' else c) :: collapseWS (d :: rest)

/-- The cleaning pipeline of `preprocess_text` after lower-casing:
punctuation removal, whitespace collapsing, strip. -/
def cleanChars (l : List Char) : List Char :=
  pyStrip (collapseWS (l.map punctMap))

/-- Transcribes `preprocess_text` (rag_utils.py lines 41-55): on falsy
(empty) input return the empty string, otherwise lower-case, replace
non-word non-space characters by a space, collapse whitespace runs and
strip. -/
def preprocess_text (text : String) : String :=
  if text = "" then ""
  else String.mk (cleanChars (pyLowerChars text.data))

/-- Models the Python substring test `needle in hay`. -/
def pyIn (needle hay : String) : Bool :=
  (List.range (hay.data.length + 1)).any
    (fun i => needle.data.isPrefixOf (hay.data.drop i))

/-- Models `sep.join(parts)` for a one-character separator. -/
def pyJoin (sep : Char) (parts : List String) : String :=
  String.mk (List.intercalate [sep] (parts.map String.data))

/-- The seven weighted fields of `FIELD_WEIGHTS` (rag_utils.py 31-39). -/
inductive ProductField where
  | name | brand | description | tags | category | gender | price
deriving DecidableEq, Repr

/-- A MongoDB product document.  `none` in an `Option` field models an
absent key.  `category` is modelled by the `name` entry of its structured
value (`none`: the key is absent or the dict carries no name).  An absent
`tags` key and an empty tag list both extract to the empty string, so
`tags` is a plain list. -/
structure Product where
  id : String := ""
  name : Option String := none
  brand : Option String := none
  description : Option String := none
  tags : List String := []
  categoryName : Option String := none
  gender : Option String := none
  price : Option ℚ := none
  in_stock : Option Bool := none
deriving DecidableEq, Repr

/-- Metadata record held by the vector index (`extract_metadata` output, or
an arbitrary record read back from the index; `in_stock = none` models an
absent key, read back with default `True`). -/
structure Metadata where
  name : String := ""
  brand : String := ""
  category : String := ""
  gender : String := ""
  price : ℚ := 0
  tags : String := ""
  in_stock : Option Bool := none
deriving DecidableEq, Repr

/-- Search filters: a `none` field models an absent key (`filters.get`
returns `None`).  The whole filter dict may itself be `None`, modelled by
`Option Filters` at use sites. -/
structure Filters where
  brand : Option String := none
  category : Option String := none
  gender : Option String := none
  in_stock : Option Bool := none
deriving DecidableEq, Repr

/-- Textual rendering of a numeric price, standing in for Python `str` on
a number.  The exact digits never matter to the claims, only that the
rendering of a number is what flows into `preprocess_text`. -/
def pyNumStr (q : ℚ) : String :=
  toString q.num ++ (if q.den == 1 then "" else "/" ++ toString q.den)

/-- Transcribes `extract_field_value` (rag_utils.py 57-69).  Falsy values
(absent key, empty string, zero price) extract to the empty string;
list-valued `tags` joins with spaces; `category` resolves to the `name`
entry of its dict. -/
def extract_field_value (p : Product) (f : ProductField) : String :=
  match f with
  | .category =>
    match p.categoryName with
    | some n => n
    | none => ""
  | .tags => pyJoin ' ' p.tags
  | .name => p.name.getD ""
  | .brand => p.brand.getD ""
  | .description => p.description.getD ""
  | .gender => p.gender.getD ""
  | .price =>
    match p.price with
    | none => ""
    | some q => if q = 0 then "" else pyNumStr q

/-- Field weights of `FIELD_WEIGHTS`, in dict insertion order. -/
def FIELD_WEIGHTS : List (ProductField × ℚ) :=
  [(.name, 4), (.brand, 3), (.description, 5/2), (.tags, 2),
   (.category, 3/2), (.gender, 1), (.price, 1/2)]

/-- Python `int()` truncation toward zero; on the nonnegative weights used
here it is the floor. -/
def pyInt (q : ℚ) : ℤ := q.num / (q.den : ℤ)

/-- Repetition count `max(1, int(weight))` of `create_searchable_text`. -/
def repeatCount (w : ℚ) : ℕ := max 1 (pyInt w).toNat

/-- One iteration of the field loop of `create_searchable_text`
(rag_utils.py 75-83): a field whose extracted value and cleaned value are
both non-empty appends `max(1, int(weight))` copies of the cleaned value. -/
def searchStep (p : Product) (acc : List String) (fw : ProductField × ℚ) :
    List String :=
  if extract_field_value p fw.1 = "" then acc
  else if preprocess_text (extract_field_value p fw.1) = "" then acc
  else acc ++ List.replicate (repeatCount fw.2)
    (preprocess_text (extract_field_value p fw.1))

/-- Transcribes `create_searchable_text` (rag_utils.py 71-85). -/
def create_searchable_text (p : Product) : String :=
  pyJoin ' ' (FIELD_WEIGHTS.foldl (searchStep p) [])

/-- Transcribes `extract_metadata` (rag_utils.py 87-97). -/
def extract_metadata (p : Product) : Metadata :=
  { name := p.name.getD ""
    brand := p.brand.getD ""
    category := extract_field_value p .category
    gender := p.gender.getD ""
    price := p.price.getD 0
    tags := pyJoin '|' p.tags
    in_stock := some (p.in_stock.getD true) }

/-- Transcribes `calculate_relevance_score` (rag_utils.py 99-133).  The
query is used raw (only lower-cased), exactly as in the source; `filters`
boosts fire only for truthy (present and non-empty) filter values; the
in-stock boost uses `metadata.get('in_stock', True)`. -/
def calculate_relevance_score (distance : ℚ) (metadata : Metadata)
    (query : String) (filters : Option Filters) : ℚ :=
  let base_score := max 0 (1 - distance)
  let query_lower := pyLower query
  let boost : ℚ := 0
  let boost := if pyIn query_lower (pyLower metadata.name) then boost + 3/10 else boost
  let boost := if pyIn query_lower (pyLower metadata.brand) then boost + 2/10 else boost
  let boost := if pyIn query_lower (pyLower metadata.category) then boost + 15/100 else boost
  let boost :=
    match filters with
    | none => boost
    | some f =>
      let boost :=
        match f.brand with
        | none => boost
        | some b => if b ≠ "" && pyIn (pyLower b) (pyLower metadata.brand) then boost + 2/10 else boost
      match f.category with
      | none => boost
      | some c => if c ≠ "" && pyIn (pyLower c) (pyLower metadata.category) then boost + 2/10 else boost
  let boost := if metadata.in_stock.getD true then boost + 1/10 else boost
  min 1 (base_score + boost)

/-- Transcribes `preprocess_query` (rag_utils.py 135-137). -/
def preprocess_query (query : String) : String := preprocess_text query

/-- A document stored in the vector index (the embedding vector itself is
external and irrelevant to the claims). -/
structure IndexedDoc where
  id : String
  text : String
  metadata : Metadata
deriving DecidableEq, Repr

/-- Transcribes the per-product body of `process_product_batch`
(rag_utils.py 169-203): skip a product whose searchable text strips to the
empty string, otherwise index it under `str(product['_id'])`. -/
def process_product_batch (batch : List Product) : List IndexedDoc :=
  batch.filterMap (fun p =>
    let text := create_searchable_text p
    if pyStripStr text = "" then none
    else some { id := p.id, text := text, metadata := extract_metadata p })

/-- The batch loop of `sync_products_to_chroma` (rag_utils.py 161-165):
process the products in blocks of 100.  The fuel argument makes the
recursion structural; it is instantiated with the list length, which
always suffices since every step consumes at least one product. -/
def syncBatches : ℕ → List Product → List IndexedDoc
  | _, [] => []
  | 0, _ => []
  | fuel + 1, products =>
    process_product_batch (products.take 100) ++
      syncBatches fuel (products.drop 100)

/-- Transcribes `sync_products_to_chroma` (rag_utils.py 140-167) as the
error-free execution: the index is cleared, then every batch is processed;
the result is the full content of the vector index afterwards.  (On an
empty catalog the function returns right after the clear, which equals
processing no batches.) -/
def sync_products_to_chroma (products : List Product) : List IndexedDoc :=
  syncBatches products.length products

/-- One nearest-neighbour hit returned by the vector index, in the
distance-ascending order Chroma returns. -/
structure QueryHit where
  id : String
  distance : ℚ
  metadata : Metadata
  document : String := ""
deriving DecidableEq, Repr

/-- One entry of `ranked_results` (rag_utils.py 314-320). -/
structure RankedResult where
  product_id : String
  distance : ℚ
  relevance_score : ℚ
  document : String
  metadata : Metadata
deriving DecidableEq, Repr

/-- Builds the `ranked_results` entry for one surviving hit
(rag_utils.py 311-320); the raw `query` is used for scoring. -/
def scoreHit (query : String) (filters : Option Filters) (h : QueryHit) :
    RankedResult :=
  { product_id := h.id
    distance := h.distance
    relevance_score := calculate_relevance_score h.distance h.metadata query filters
    document := h.document
    metadata := h.metadata }

/-- The candidate loop of `search_products_improved` (rag_utils.py
300-320): drop hits with `distance > max_distance`, score the rest with
the raw query, preserving the input (distance-ascending) order. -/
def scoreHits (hits : List QueryHit) (query : String)
    (filters : Option Filters) (max_distance : ℚ) : List RankedResult :=
  (hits.filter (fun h => !decide (h.distance > max_distance))).map
    (scoreHit query filters)

/-- Stable insertion for the descending sort: `x` is placed before the
first element whose score does not exceed its own, so that elements equal
in score keep their input order with `x` (which came later) after them. -/
def insertDesc (x : RankedResult) : List RankedResult → List RankedResult
  | [] => [x]
  | y :: ys =>
    if y.relevance_score ≤ x.relevance_score then x :: y :: ys
    else y :: insertDesc x ys

/-- Models `ranked_results.sort(key=..relevance_score, reverse=True)`: the
Python sort is stable, and this insertion sort is extensionally the unique
stable descending sort by score. -/
def sortByScoreDesc : List RankedResult → List RankedResult
  | [] => []
  | x :: xs => insertDesc x (sortByScoreDesc xs)

/-- Filtering, scoring and ranking of `search_products_improved`
(rag_utils.py 300-323). -/
def rankResults (hits : List QueryHit) (query : String)
    (filters : Option Filters) (max_distance : ℚ) : List RankedResult :=
  sortByScoreDesc (scoreHits hits query filters max_distance)

/-- Python slice `l[a:b]` (step 1) with its negative-index and clamping
semantics. -/
def pySlice {α : Type} (l : List α) (a b : ℤ) : List α :=
  let n : ℤ := l.length
  let a' : ℤ := if a < 0 then max 0 (a + n) else min a n
  let b' : ℤ := if b < 0 then max 0 (b + n) else min b n
  (l.take b'.toNat).drop a'.toNat

/-- Transcribes `search_products_improved` (rag_utils.py 249-356).  The
external collaborators enter as data: `collectionCount` is
`collection.count()`, `hits` the reply of `collection.query` (already
metadata-filtered by the index), `catalog` the MongoDB collection.
`top_k` only shapes the index request and is otherwise unused. -/
def search_products_improved (collectionCount : ℕ) (hits : List QueryHit)
    (catalog : List Product) (query : String) (top_k : ℤ) (page : ℤ)
    (limit : ℤ) (filters : Option Filters) (max_distance : ℚ) :
    List Product × List RankedResult × ℕ :=
  if collectionCount = 0 then ([], [], 0)
  else if hits = [] then ([], [], 0)
  else
    let ranked := rankResults hits query filters max_distance
    if ranked = [] then ([], [], 0)
    else
      let start_idx := (page - 1) * limit
      let end_idx := start_idx + limit
      let paginated := pySlice ranked start_idx end_idx
      if paginated = [] then ([], [], 0)
      else
        let mongo_docs := catalog.filter
          (fun d => (paginated.map (fun item => item.product_id)).contains d.id)
        let ordered := paginated.filterMap
          (fun item => mongo_docs.find? (fun d => d.id == item.product_id))
        (ordered, paginated, ranked.length)

/-- Transcribes the legacy `search_products` (rag_utils.py 358-362). -/
def search_products (collectionCount : ℕ) (hits : List QueryHit)
    (catalog : List Product) (query : String) (top_k : ℤ)
    (max_distance : ℚ) : List Product × List RankedResult :=
  let r := search_products_improved collectionCount hits catalog query
    top_k 1 top_k none max_distance
  (r.1, r.2.1)

/-- Error taxonomy named by the specification for the search entry point. -/
inductive SearchError where
  | InvalidQuery
  | InvalidPagination
deriving DecidableEq, Repr

/-- Transcribes the validation and retrieval of the `/search` endpoint
`ai_search` (app.py 104-126): a falsy (empty) query is rejected with the
400 "Query is required" response, modelled as `InvalidQuery`, before any
retrieval; every other request proceeds directly to
`search_products_improved` with `top_k = limit * 2` — the source contains
no check on `page` or `limit`. -/
def ai_search (collectionCount : ℕ) (hits : List QueryHit)
    (catalog : List Product) (query : String) (page : ℤ) (limit : ℤ)
    (filters : Option Filters) (max_distance : ℚ) :
    Except SearchError (List Product × List RankedResult × ℕ) :=
  if query = "" then Except.error SearchError.InvalidQuery
  else Except.ok (search_products_improved collectionCount hits catalog
    query (limit * 2) page limit filters max_distance)

/-- Statistics record returned by `get_search_stats`. -/
structure Stats where
  chroma_products : ℕ
  mongo_products : ℕ
  sync_status : String
  model : String
deriving DecidableEq, Repr

/-- Transcribes `get_search_stats` (rag_utils.py 419-432):
`collection.count()` and `count_documents({})` enter as data. -/
def get_search_stats (chroma_count mongo_count : ℕ) : Stats :=
  { chroma_products := chroma_count
    mongo_products := mongo_count
    sync_status := if chroma_count = mongo_count then "synced" else "out_of_sync"
    model := "all-MiniLM-L6-v2" }

/-! Spec-side definitions: transcriptions of the claims (not of the
source), compared with the source definitions in the theorems below. -/

/-- The boost sum as C1 states it: one additive term per condition, with a
set filter value meaning a present and non-empty (truthy) one. -/
def claimBoost (m : Metadata) (q : String) (f : Option Filters) : ℚ :=
  (if pyIn (pyLower q) (pyLower m.name) then 3/10 else 0)
  + (if pyIn (pyLower q) (pyLower m.brand) then 2/10 else 0)
  + (if pyIn (pyLower q) (pyLower m.category) then 15/100 else 0)
  + (if (f.elim false fun ff =>
        ff.brand.elim false fun b => b ≠ "" && pyIn (pyLower b) (pyLower m.brand))
      then 2/10 else 0)
  + (if (f.elim false fun ff =>
        ff.category.elim false fun c => c ≠ "" && pyIn (pyLower c) (pyLower m.category))
      then 2/10 else 0)
  + (if m.in_stock.getD true then 1/10 else 0)

/-- Whitespace collapsing written independently of `collapseWS`, as the
spec phrases it: scanning from the right, a whitespace character merges
into an already-emitted space or emits a single space. -/
def collapseSpec (l : List Char) : List Char :=
  l.foldr
    (fun c acc =>
      if isSpaceChar c then
        (if acc.head? = some ' ' then acc else ' ' :: acc)
      else c :: acc) []

/-- The normalization pipeline as C7 describes it, amended to keep word
characters (alphanumeric or underscore): lower-case, replace each
character that is neither a word character nor whitespace with a single
space, collapse whitespace runs, trim. -/
def normalizeSpec (s : String) : String :=
  String.mk (pyStrip (collapseSpec ((s.data.map Char.toLower).map
    (fun c => if c.isAlphanum || c == '_' || isSpaceChar c then c else ' '))))

/-- The normalization pipeline exactly as C7 states it, keeping only
alphanumeric and whitespace characters (no underscore). -/
def normalizeClaimed (s : String) : String :=
  String.mk (pyStrip (collapseSpec ((s.data.map Char.toLower).map
    (fun c => if c.isAlphanum || isSpaceChar c then c else ' '))))

/-- Option-string field that is empty or absent, as C6 states it. -/
def optStrEmpty : Option String → Bool
  | none => true
  | some s => s == ""

/-- All seven weighted fields empty or absent, as C6 states it. -/
def fieldsEmptyOrAbsent (p : Product) : Bool :=
  optStrEmpty p.name && optStrEmpty p.brand && optStrEmpty p.description &&
  p.tags.isEmpty && optStrEmpty p.categoryName && optStrEmpty p.gender &&
  p.price.isNone

/-! Helper lemmas: characters. -/

theorem toLower_toLower (c : Char) :
    Char.toLower (Char.toLower c) = Char.toLower c := by
  unfold Char.toLower
  by_cases h : c.toNat ≥ 65 ∧ c.toNat ≤ 90
  · rw [if_pos h]
    have hval : (c.toNat + 32).isValidChar := Or.inl (by omega)
    have htn : (Char.ofNat (c.toNat + 32)).toNat = c.toNat + 32 := by
      rw [Char.ofNat, dif_pos hval]; rfl
    rw [if_neg]
    rw [htn]
    omega
  · rw [if_neg h, if_neg h]

theorem space_not_word {c : Char} (h : isSpaceChar c = true) :
    isWordChar c = false := by
  have hc : ((c = ' ' ∨ c = '\t') ∨ c = '\x0d') ∨ c = '\n' := by
    simpa [isSpaceChar, Char.isWhitespace, decide_eq_true_iff] using h
  rcases hc with ((hc | hc) | hc) | hc <;> subst hc <;> decide

theorem word_not_space {c : Char} (h : isWordChar c = true) :
    isSpaceChar c = false := by
  cases hs : isSpaceChar c with
  | false => rfl
  | true => rw [space_not_word hs] at h; exact absurd h (by simp)

/-! Helper lemmas: dropWhile and strip. -/

theorem dropWhile_head?_not {α : Type} (p : α → Bool) (l : List α) {c : α}
    (h : (l.dropWhile p).head? = some c) : p c = false := by
  induction l with
  | nil => simp at h
  | cons x xs ih =>
    rw [List.dropWhile_cons] at h
    split at h
    · exact ih h
    · next hx =>
      simp only [List.head?_cons, Option.some.injEq] at h
      subst h
      exact Bool.eq_false_iff.mpr hx

theorem dropWhile_eq_self_of_head? {α : Type} (p : α → Bool) (l : List α)
    (h : ∀ c, l.head? = some c → p c = false) : l.dropWhile p = l := by
  cases l with
  | nil => rfl
  | cons x xs =>
    rw [List.dropWhile_cons, if_neg]
    simp [h x rfl]

theorem dropWhile_getLast? {α : Type} (p : α → Bool) (l : List α)
    (h : l.dropWhile p ≠ []) : (l.dropWhile p).getLast? = l.getLast? := by
  obtain ⟨pre, hpre⟩ := List.dropWhile_suffix (l := l) p
  conv_rhs => rw [← hpre]
  rw [List.getLast?_append]
  cases hd : (l.dropWhile p).getLast? with
  | none => exact absurd (List.getLast?_eq_none_iff.mp hd) h
  | some c => rfl

theorem dropWhile_all {α : Type} (p : α → Bool) (l : List α) :
    (∀ c ∈ l.dropWhile p, p c = true) ↔ (∀ c ∈ l, p c = true) := by
  induction l with
  | nil => simp
  | cons x xs ih =>
    rw [List.dropWhile_cons]
    split
    · next hx => simp [List.forall_mem_cons, ih, hx]
    · rfl

theorem mem_pyStrip {l : List Char} {c : Char} (h : c ∈ pyStrip l) : c ∈ l := by
  unfold pyStrip at h
  rw [List.mem_reverse] at h
  have h1 := List.Sublist.mem h (List.dropWhile_sublist _)
  rw [List.mem_reverse] at h1
  exact List.Sublist.mem h1 (List.dropWhile_sublist _)

theorem pyStrip_head?_not {l : List Char} {c : Char}
    (h : (pyStrip l).head? = some c) : isSpaceChar c = false := by
  unfold pyStrip at h
  rw [List.head?_reverse] at h
  have hne :
      (List.dropWhile isSpaceChar (List.dropWhile isSpaceChar l).reverse) ≠ [] := by
    intro hnil
    rw [hnil] at h
    exact absurd h (by simp)
  rw [dropWhile_getLast? _ _ hne, List.getLast?_reverse] at h
  exact dropWhile_head?_not _ _ h

theorem pyStrip_getLast?_not {l : List Char} {c : Char}
    (h : (pyStrip l).getLast? = some c) : isSpaceChar c = false := by
  unfold pyStrip at h
  rw [List.getLast?_reverse] at h
  exact dropWhile_head?_not _ _ h

theorem pyStrip_eq_self {l : List Char}
    (h1 : ∀ c, l.head? = some c → isSpaceChar c = false)
    (h2 : ∀ c, l.getLast? = some c → isSpaceChar c = false) :
    pyStrip l = l := by
  unfold pyStrip
  rw [dropWhile_eq_self_of_head? _ _ h1]
  rw [dropWhile_eq_self_of_head? _ _
    (fun c hc => h2 c (by rwa [List.head?_reverse] at hc))]
  exact List.reverse_reverse l

theorem pyStrip_idem (l : List Char) : pyStrip (pyStrip l) = pyStrip l :=
  pyStrip_eq_self (fun _ hc => pyStrip_head?_not hc)
    (fun _ hc => pyStrip_getLast?_not hc)

theorem pyStrip_eq_nil_iff {l : List Char} :
    pyStrip l = [] ↔ ∀ c ∈ l, isSpaceChar c = true := by
  unfold pyStrip
  rw [List.reverse_eq_nil_iff, List.dropWhile_eq_nil_iff]
  constructor
  · intro h
    rw [← dropWhile_all isSpaceChar l]
    intro c hc
    exact h c (List.mem_reverse.mpr hc)
  · intro h c hc
    exact h c (List.Sublist.mem (List.mem_reverse.mp hc) (List.dropWhile_sublist _))

theorem mk_eq_empty_iff {l : List Char} : String.mk l = "" ↔ l = [] := by
  simp [String.ext_iff]

/-! Helper lemmas: whitespace collapsing. -/

theorem collapseWS_head?_space {d : Char} (rest : List Char)
    (hd : isSpaceChar d = true) :
    (collapseWS (d :: rest)).head? = some ' ' := by
  induction rest generalizing d with
  | nil => simp [collapseWS, hd]
  | cons e rest ih =>
    by_cases he : isSpaceChar e = true
    · rw [show collapseWS (d :: e :: rest) = collapseWS (e :: rest) from by
        simp [collapseWS, hd, he]]
      exact ih he
    · simp [collapseWS, hd, he]

theorem collapseWS_head?_nonspace {d : Char} (rest : List Char)
    (hd : isSpaceChar d = false) :
    (collapseWS (d :: rest)).head? = some d := by
  cases rest with
  | nil => simp [collapseWS, hd]
  | cons e rest => simp [collapseWS, hd]

theorem collapseWS_mem (l : List Char) :
    ∀ c ∈ collapseWS l, c = ' ' ∨ (c ∈ l ∧ isSpaceChar c = false) := by
  induction l using collapseWS.induct with
  | case1 => simp [collapseWS]
  | case2 x =>
    intro c hc
    simp only [collapseWS, List.mem_singleton] at hc
    subst hc
    by_cases hx : isSpaceChar x = true
    · rw [if_pos hx]
      exact Or.inl rfl
    · rw [if_neg hx]
      exact Or.inr ⟨by simp, Bool.eq_false_iff.mpr hx⟩
  | case3 x d rest hxd ih =>
    intro c hc
    rw [show collapseWS (x :: d :: rest) = collapseWS (d :: rest) from by
      simp [collapseWS, hxd]] at hc
    rcases ih c hc with h | ⟨hmem, hns⟩
    · exact Or.inl h
    · exact Or.inr ⟨List.mem_cons_of_mem _ hmem, hns⟩
  | case4 x d rest hxd ih =>
    intro c hc
    rw [show collapseWS (x :: d :: rest)
        = (if isSpaceChar x then ' ' else x) :: collapseWS (d :: rest) from by
      simp [collapseWS, hxd]] at hc
    rcases List.mem_cons.mp hc with hc | hc
    · by_cases hx : isSpaceChar x = true
      · rw [if_pos hx] at hc
        exact Or.inl hc
      · rw [if_neg hx] at hc
        subst hc
        exact Or.inr ⟨by simp, Bool.eq_false_iff.mpr hx⟩
    · rcases ih c hc with h | ⟨hmem, hns⟩
      · exact Or.inl h
      · exact Or.inr ⟨List.mem_cons_of_mem _ hmem, hns⟩

theorem collapseWS_chain (l : List Char) :
    (collapseWS l).Chain'
      (fun a b => ¬(isSpaceChar a = true ∧ isSpaceChar b = true)) := by
  induction l using collapseWS.induct with
  | case1 => simp [collapseWS]
  | case2 x => simp [collapseWS]
  | case3 x d rest hxd ih =>
    rw [show collapseWS (x :: d :: rest) = collapseWS (d :: rest) from by
      simp [collapseWS, hxd]]
    exact ih
  | case4 x d rest hxd ih =>
    rw [show collapseWS (x :: d :: rest)
        = (if isSpaceChar x then ' ' else x) :: collapseWS (d :: rest) from by
      simp [collapseWS, hxd]]
    rw [List.chain'_cons']
    refine ⟨?_, ih⟩
    intro y hy
    by_cases hx : isSpaceChar x = true
    · have hd : isSpaceChar d = false := by
        cases hds : isSpaceChar d
        · rfl
        · exact absurd (by simp [hx, hds]) hxd
      rw [collapseWS_head?_nonspace rest hd] at hy
      have : d = y := by simpa using hy
      subst this
      intro hcontra
      rw [hd] at hcontra
      exact absurd hcontra.2 (by simp)
    · rw [if_neg hx]
      intro hcontra
      exact hx hcontra.1

theorem collapseWS_eq_self (l : List Char) :
    (∀ c ∈ l, isSpaceChar c = true → c = ' ') →
    l.Chain' (fun a b => ¬(isSpaceChar a = true ∧ isSpaceChar b = true)) →
    collapseWS l = l := by
  induction l using collapseWS.induct with
  | case1 => intro _ _; rfl
  | case2 x =>
    intro hsp _
    simp only [collapseWS]
    by_cases hx : isSpaceChar x = true
    · rw [if_pos hx, hsp x (by simp) hx]
    · rw [if_neg hx]
  | case3 x d rest hxd ih =>
    intro hsp hch
    exfalso
    have hrel := (List.chain'_cons.mp hch).1
    simp only [Bool.and_eq_true] at hxd
    exact hrel ⟨hxd.1, hxd.2⟩
  | case4 x d rest hxd ih =>
    intro hsp hch
    rw [show collapseWS (x :: d :: rest)
        = (if isSpaceChar x then ' ' else x) :: collapseWS (d :: rest) from by
      simp [collapseWS, hxd]]
    have hx' : (if isSpaceChar x then ' ' else x) = x := by
      by_cases hx : isSpaceChar x = true
      · rw [if_pos hx, hsp x (by simp) hx]
      · rw [if_neg hx]
    rw [hx', ih (fun c hc h => hsp c (List.mem_cons_of_mem _ hc) h)
      (List.chain'_cons.mp hch).2]

theorem collapseWS_eq_collapseSpec (l : List Char) :
    collapseWS l = collapseSpec l := by
  induction l with
  | nil => rfl
  | cons x xs ih =>
    rw [show collapseSpec (x :: xs)
        = if isSpaceChar x then
            (if (collapseSpec xs).head? = some ' ' then collapseSpec xs
             else ' ' :: collapseSpec xs)
          else x :: collapseSpec xs from rfl]
    rw [← ih]
    cases xs with
    | nil =>
      by_cases hx : isSpaceChar x = true
      · simp [collapseWS, hx]
      · simp [collapseWS, hx]
    | cons d rest =>
      by_cases hx : isSpaceChar x = true
      · by_cases hd : isSpaceChar d = true
        · rw [if_pos hx,
            show collapseWS (x :: d :: rest) = collapseWS (d :: rest) from by
              simp [collapseWS, hx, hd],
            if_pos (collapseWS_head?_space rest hd)]
        · rw [if_pos hx,
            show collapseWS (x :: d :: rest)
                = (if isSpaceChar x then ' ' else x) :: collapseWS (d :: rest) from by
              simp [collapseWS, hx, hd],
            if_pos hx, if_neg]
          rw [collapseWS_head?_nonspace rest (Bool.eq_false_iff.mpr hd)]
          intro hcontra
          have : d = ' ' := by simpa using hcontra
          subst this
          exact absurd (by simp [isSpaceChar] : isSpaceChar ' ' = true) hd
      · rw [if_neg hx,
          show collapseWS (x :: d :: rest)
              = (if isSpaceChar x then ' ' else x) :: collapseWS (d :: rest) from by
            simp [collapseWS, hx],
          if_neg hx]

/-! Helper lemmas: the cleaning pipeline of `preprocess_text`. -/

theorem map_eq_self {α : Type} {f : α → α} {l : List α}
    (h : ∀ c ∈ l, f c = c) : l.map f = l := by
  induction l with
  | nil => rfl
  | cons x xs ih => simp_all

theorem mem_cleanChars {l : List Char} {c : Char} (h : c ∈ cleanChars l) :
    c = ' ' ∨ (c ∈ l.map punctMap ∧ isSpaceChar c = false) :=
  collapseWS_mem _ _ (mem_pyStrip h)

theorem cleanChars_class {l : List Char} {c : Char} (h : c ∈ cleanChars l) :
    c = ' ' ∨ (isWordChar c = true ∧ isSpaceChar c = false) := by
  rcases mem_cleanChars h with h | ⟨hmem, hns⟩
  · exact Or.inl h
  · rw [List.mem_map] at hmem
    obtain ⟨c0, _, hpc⟩ := hmem
    unfold punctMap at hpc
    split at hpc
    · exact Or.inl hpc.symm
    · next hcond =>
      subst hpc
      rw [Bool.and_eq_true, Bool.not_eq_true', Bool.not_eq_true'] at hcond
      rcases not_and_or.mp hcond with hw | hs
      · refine Or.inr ⟨?_, hns⟩
        cases hval : isWordChar c0
        · exact absurd hval hw
        · rfl
      · exfalso
        cases hval : isSpaceChar c0
        · exact hs hval
        · rw [hval] at hns; cases hns

theorem cleanChars_lower_fixed {m : List Char} {c : Char}
    (h : c ∈ cleanChars (pyLowerChars m)) : Char.toLower c = c := by
  rcases mem_cleanChars h with h | ⟨hmem, _⟩
  · subst h; decide
  · rw [List.mem_map] at hmem
    obtain ⟨c0, hc0, hpc⟩ := hmem
    rw [pyLowerChars, List.mem_map] at hc0
    obtain ⟨c1, _, hc1⟩ := hc0
    unfold punctMap at hpc
    split at hpc
    · rw [← hpc]; decide
    · rw [← hpc, ← hc1]
      exact toLower_toLower c1

theorem chain'_dropWhile {α : Type} {R : α → α → Prop} {p : α → Bool}
    {l : List α} (h : l.Chain' R) : (l.dropWhile p).Chain' R := by
  obtain ⟨pre, hpre⟩ := List.dropWhile_suffix (l := l) p
  rw [← hpre] at h
  exact (List.chain'_append.mp h).2.1

theorem chain'_reverse_symm {α : Type} {R : α → α → Prop}
    (hsymm : ∀ a b, R a b → R b a) {l : List α} (h : l.Chain' R) :
    l.reverse.Chain' R := by
  rw [List.chain'_reverse]
  exact List.Chain'.imp hsymm h

theorem chain'_pyStrip {R : Char → Char → Prop}
    (hsymm : ∀ a b, R a b → R b a) {l : List Char} (h : l.Chain' R) :
    (pyStrip l).Chain' R := by
  unfold pyStrip
  exact chain'_reverse_symm hsymm (chain'_dropWhile
    (chain'_reverse_symm hsymm (chain'_dropWhile h)))

theorem cleanChars_fixpoint (m : List Char) :
    cleanChars (pyLowerChars (cleanChars (pyLowerChars m)))
      = cleanChars (pyLowerChars m) := by
  set y := cleanChars (pyLowerChars m) with hy
  have hclass : ∀ c ∈ y, c = ' ' ∨ (isWordChar c = true ∧ isSpaceChar c = false) :=
    fun c hc => cleanChars_class hc
  have hlow : pyLowerChars y = y := map_eq_self (fun c hc => cleanChars_lower_fixed hc)
  have hpunct : y.map punctMap = y := map_eq_self (fun c hc => by
    rcases hclass c hc with h | ⟨hw, _⟩
    · subst h; decide
    · unfold punctMap
      rw [hw]
      simp)
  have hchain : y.Chain' (fun a b => ¬(isSpaceChar a = true ∧ isSpaceChar b = true)) := by
    rw [hy]
    unfold cleanChars
    exact chain'_pyStrip (fun a b hab hc => hab ⟨hc.2, hc.1⟩) (collapseWS_chain _)
  have hcoll : collapseWS y = y := by
    apply collapseWS_eq_self y _ hchain
    intro c hc hsp
    rcases hclass c hc with h | ⟨_, hns⟩
    · exact h
    · rw [hsp] at hns; cases hns
  have hstrip : pyStrip y = y := by
    rw [hy]
    unfold cleanChars
    exact pyStrip_idem _
  calc cleanChars (pyLowerChars y) = cleanChars y := by rw [hlow]
    _ = pyStrip (collapseWS (y.map punctMap)) := rfl
    _ = pyStrip (collapseWS y) := by rw [hpunct]
    _ = pyStrip y := by rw [hcoll]
    _ = y := hstrip

theorem preprocess_text_idem (s : String) :
    preprocess_text (preprocess_text s) = preprocess_text s := by
  by_cases hs : s = ""
  · subst hs; rfl
  · rw [show preprocess_text s = String.mk (cleanChars (pyLowerChars s.data)) from by
      rw [preprocess_text, if_neg hs]]
    by_cases hy : String.mk (cleanChars (pyLowerChars s.data)) = ""
    · rw [hy]; rfl
    · rw [preprocess_text, if_neg hy]
      rw [show (String.mk (cleanChars (pyLowerChars s.data))).data
          = cleanChars (pyLowerChars s.data) from rfl]
      rw [cleanChars_fixpoint]

/-! Helper lemmas: the spec formulation of the normalizer. -/

theorem punctMap_eq_spec (c : Char) :
    punctMap c = (if c.isAlphanum || c == '_' || isSpaceChar c then c else ' ') := by
  unfold punctMap isWordChar
  cases ha : c.isAlphanum <;> cases hu : (c == '_') <;> cases hs : isSpaceChar c <;>
    simp [ha, hu, hs]

theorem preprocess_eq_normalizeSpec (s : String) :
    preprocess_text s = normalizeSpec s := by
  by_cases hs : s = ""
  · subst hs; rfl
  · rw [preprocess_text, if_neg hs, normalizeSpec]
    unfold cleanChars
    rw [← collapseWS_eq_collapseSpec]
    have hmap : punctMap
        = (fun c => if c.isAlphanum || c == '_' || isSpaceChar c then c else ' ') :=
      funext punctMap_eq_spec
    rw [show pyLowerChars s.data = s.data.map Char.toLower from rfl, hmap]

/-! Helper lemmas: searchable-text construction. -/

theorem searchStep_append (p : Product) (fw : ProductField × ℚ)
    (acc : List String) :
    searchStep p acc fw = acc ++ searchStep p [] fw := by
  unfold searchStep
  split
  · simp
  · split
    · simp
    · simp

theorem foldl_searchStep_append (p : Product) (fws : List (ProductField × ℚ))
    (acc : List String) :
    fws.foldl (searchStep p) acc = acc ++ fws.foldl (searchStep p) [] := by
  induction fws generalizing acc with
  | nil => simp
  | cons fw fws ih =>
    rw [List.foldl_cons, List.foldl_cons, ih, ih (searchStep p [] fw),
      searchStep_append, List.append_assoc]

theorem foldl_searchStep_eq_flatten (p : Product)
    (fws : List (ProductField × ℚ)) :
    fws.foldl (searchStep p) [] = (fws.map (searchStep p [])).flatten := by
  induction fws with
  | nil => rfl
  | cons fw fws ih =>
    rw [List.foldl_cons, foldl_searchStep_append, ih, List.map_cons,
      List.flatten_cons]

theorem repeatCount_pos (w : ℚ) : repeatCount w ≠ 0 := by
  unfold repeatCount
  omega

theorem mem_searchStep_nil {p : Product} {fw : ProductField × ℚ} {s : String}
    (h : s ∈ searchStep p [] fw) :
    s ≠ "" ∧ s = preprocess_text (extract_field_value p fw.1) := by
  unfold searchStep at h
  split at h
  · cases h
  · split at h
    · cases h
    · next hcl =>
      simp only [List.nil_append, List.mem_replicate] at h
      exact ⟨h.2 ▸ hcl, h.2⟩

theorem searchStep_nil_eq_nil_iff {p : Product} {fw : ProductField × ℚ} :
    searchStep p [] fw = [] ↔
      preprocess_text (extract_field_value p fw.1) = "" := by
  unfold searchStep
  split
  · next hv => simp [hv, preprocess_text]
  · split
    · next hcl => simp [hcl]
    · next hcl =>
      simp only [List.nil_append]
      constructor
      · intro h
        have hk := congrArg List.length h
        rw [List.length_replicate, List.length_nil] at hk
        exact absurd hk (repeatCount_pos _)
      · intro h; exact absurd h hcl

theorem cst_parts_spec {p : Product} {s : String}
    (h : s ∈ FIELD_WEIGHTS.foldl (searchStep p) []) :
    s ≠ "" ∧ ∃ v, v ≠ "" ∧ s = preprocess_text v := by
  rw [foldl_searchStep_eq_flatten, List.mem_flatten] at h
  obtain ⟨part, hpart, hs⟩ := h
  rw [List.mem_map] at hpart
  obtain ⟨fw, _, hfw⟩ := hpart
  subst hfw
  obtain ⟨hne, heq⟩ := mem_searchStep_nil hs
  refine ⟨hne, extract_field_value p fw.1, ?_, heq⟩
  intro hv
  rw [hv] at heq
  exact hne (by rw [heq]; rfl)

theorem intercalate_cons_sub {α : Type} (sep x : List α) (xs : List (List α)) :
    ∃ t, List.intercalate sep (x :: xs) = x ++ t := by
  cases xs with
  | nil => exact ⟨[], by simp [List.intercalate]⟩
  | cons y ys =>
    refine ⟨sep ++ List.intercalate sep (y :: ys), ?_⟩
    simp [List.intercalate, List.intersperse]

theorem preprocess_head_not_space {v : String} {c : Char} {rest : List Char}
    (h : (preprocess_text v).data = c :: rest) : isSpaceChar c = false := by
  by_cases hv : v = ""
  · rw [hv] at h; cases h
  · rw [preprocess_text, if_neg hv] at h
    unfold cleanChars at h
    exact pyStrip_head?_not (l := collapseWS ((pyLowerChars v.data).map punctMap))
      (by rw [show (String.mk (pyStrip (collapseWS ((pyLowerChars v.data).map punctMap)))).data
            = pyStrip (collapseWS ((pyLowerChars v.data).map punctMap)) from rfl] at h
          rw [h]; rfl)

theorem create_searchable_text_head {p : Product}
    (h : create_searchable_text p ≠ "") :
    ∃ c ∈ (create_searchable_text p).data, isSpaceChar c = false := by
  cases hp : FIELD_WEIGHTS.foldl (searchStep p) [] with
  | nil =>
    exfalso
    apply h
    rw [create_searchable_text, hp]
    rfl
  | cons p0 rest =>
    have hmem0 : p0 ∈ FIELD_WEIGHTS.foldl (searchStep p) [] := by
      rw [hp]; exact List.mem_cons_self _ _
    obtain ⟨hne, v, hv, heq⟩ := cst_parts_spec hmem0
    cases hd : p0.data with
    | nil => exact absurd (String.ext_iff.mpr hd) hne
    | cons c t =>
      have hcs : isSpaceChar c = false := by
        apply preprocess_head_not_space (v := v)
        rw [← heq]
        exact hd
      refine ⟨c, ?_, hcs⟩
      rw [create_searchable_text, hp]
      show c ∈ List.intercalate [' '] ((p0 :: rest).map String.data)
      rw [List.map_cons]
      obtain ⟨tail, htail⟩ := intercalate_cons_sub [' '] p0.data (rest.map String.data)
      rw [htail, List.mem_append]
      exact Or.inl (by rw [hd]; exact List.mem_cons_self _ _)

theorem pyStripStr_cst_eq_empty_iff (p : Product) :
    pyStripStr (create_searchable_text p) = "" ↔ create_searchable_text p = "" := by
  constructor
  · intro h
    by_contra hne
    obtain ⟨c, hc, hns⟩ := create_searchable_text_head hne
    rw [pyStripStr, mk_eq_empty_iff, pyStrip_eq_nil_iff] at h
    rw [h c hc] at hns
    cases hns
  · intro h
    rw [h]
    rfl

theorem cst_eq_empty_iff_parts (p : Product) :
    create_searchable_text p = "" ↔ FIELD_WEIGHTS.foldl (searchStep p) [] = [] := by
  constructor
  · intro h
    cases hp : FIELD_WEIGHTS.foldl (searchStep p) [] with
    | nil => rfl
    | cons p0 rest =>
      exfalso
      have hmem0 : p0 ∈ FIELD_WEIGHTS.foldl (searchStep p) [] := by
        rw [hp]; exact List.mem_cons_self _ _
      obtain ⟨hne, _, _, _⟩ := cst_parts_spec hmem0
      have hd : p0.data ≠ [] := fun hnil => hne (String.ext_iff.mpr hnil)
      obtain ⟨c, t, hct⟩ := List.exists_cons_of_ne_nil hd
      apply absurd h
      rw [create_searchable_text, hp]
      intro hempty
      rw [mk_eq_empty_iff] at hempty
      obtain ⟨tail, htail⟩ := intercalate_cons_sub [' '] p0.data (rest.map String.data)
      rw [show (pyJoin ' ' (p0 :: rest)).data
          = List.intercalate [' '] (p0.data :: rest.map String.data) from rfl,
        htail, hct] at hempty
      cases hempty
  · intro h
    rw [create_searchable_text, h]
    rfl

theorem cst_eq_empty_iff (p : Product) :
    create_searchable_text p = "" ↔
      ∀ fw ∈ FIELD_WEIGHTS, preprocess_text (extract_field_value p fw.1) = "" := by
  rw [cst_eq_empty_iff_parts, foldl_searchStep_eq_flatten, List.flatten_eq_nil_iff]
  constructor
  · intro h fw hfw
    rw [← searchStep_nil_eq_nil_iff]
    exact h _ (List.mem_map_of_mem _ hfw)
  · intro h part hpart
    rw [List.mem_map] at hpart
    obtain ⟨fw, hfw, rfl⟩ := hpart
    rw [searchStep_nil_eq_nil_iff]
    exact h fw hfw

/-! Helper lemmas: the stable descending sort. -/

theorem insertDesc_length (x : RankedResult) (l : List RankedResult) :
    (insertDesc x l).length = l.length + 1 := by
  induction l with
  | nil => rfl
  | cons y ys ih =>
    unfold insertDesc
    split
    · simp
    · simp [ih]

theorem sortByScoreDesc_length (l : List RankedResult) :
    (sortByScoreDesc l).length = l.length := by
  induction l with
  | nil => rfl
  | cons x xs ih => simp [sortByScoreDesc, insertDesc_length, ih]

theorem insertDesc_perm (x : RankedResult) (l : List RankedResult) :
    (insertDesc x l).Perm (x :: l) := by
  induction l with
  | nil => exact List.Perm.refl _
  | cons y ys ih =>
    unfold insertDesc
    split
    · exact List.Perm.refl _
    · exact (ih.cons y).trans (List.Perm.swap x y ys)

theorem sortByScoreDesc_perm (l : List RankedResult) :
    (sortByScoreDesc l).Perm l := by
  induction l with
  | nil => exact List.Perm.refl _
  | cons x xs ih => exact (insertDesc_perm x _).trans (ih.cons x)

theorem mem_insertDesc {x y : RankedResult} {l : List RankedResult}
    (h : y ∈ insertDesc x l) : y = x ∨ y ∈ l := by
  have := (insertDesc_perm x l).mem_iff.mp h
  exact List.mem_cons.mp this

theorem insertDesc_sorted {x : RankedResult} {l : List RankedResult}
    (h : l.Pairwise (fun a b => b.relevance_score ≤ a.relevance_score)) :
    (insertDesc x l).Pairwise
      (fun a b => b.relevance_score ≤ a.relevance_score) := by
  induction l with
  | nil => simp [insertDesc]
  | cons y ys ih =>
    unfold insertDesc
    split
    · next hle =>
      rw [List.pairwise_cons]
      refine ⟨?_, h⟩
      intro z hz
      rcases List.mem_cons.mp hz with rfl | hz
      · exact hle
      · exact le_trans ((List.pairwise_cons.mp h).1 z hz) hle
    · next hgt =>
      rw [List.pairwise_cons]
      obtain ⟨hy, hys⟩ := List.pairwise_cons.mp h
      refine ⟨?_, ih hys⟩
      intro z hz
      rcases mem_insertDesc hz with rfl | hz
      · exact (lt_of_not_le hgt).le
      · exact hy z hz

theorem sortByScoreDesc_sorted (l : List RankedResult) :
    (sortByScoreDesc l).Pairwise
      (fun a b => b.relevance_score ≤ a.relevance_score) := by
  induction l with
  | nil => simp [sortByScoreDesc]
  | cons x xs ih => exact insertDesc_sorted ih

theorem filter_insertDesc (q : ℚ) (x : RankedResult) (l : List RankedResult) :
    (insertDesc x l).filter (fun r => decide (r.relevance_score = q))
      = (x :: l).filter (fun r => decide (r.relevance_score = q)) := by
  induction l with
  | nil => rfl
  | cons y ys ih =>
    unfold insertDesc
    split
    · rfl
    · next hgt =>
      by_cases hx : x.relevance_score = q
      · have hy : ¬ (y.relevance_score = q) := fun hyq => hgt (by rw [hyq, hx])
        simp only [List.filter_cons, ih]
        simp [hy, hx]
      · simp only [List.filter_cons, ih]
        simp [hx]

theorem filter_sortByScoreDesc (q : ℚ) (l : List RankedResult) :
    (sortByScoreDesc l).filter (fun r => decide (r.relevance_score = q))
      = l.filter (fun r => decide (r.relevance_score = q)) := by
  induction l with
  | nil => rfl
  | cons x xs ih =>
    rw [show sortByScoreDesc (x :: xs) = insertDesc x (sortByScoreDesc xs) from rfl,
      filter_insertDesc, List.filter_cons, List.filter_cons, ih]

/-! Helper lemmas: the relevance-score formula. -/

set_option maxHeartbeats 1600000 in
theorem calc_eq_claimBoost (d : ℚ) (m : Metadata) (q : String)
    (f : Option Filters) :
    calculate_relevance_score d m q f
      = min 1 (max 0 (1 - d) + claimBoost m q f) := by
  rcases f with _ | ⟨fb, fc, fg, fs⟩
  · simp only [calculate_relevance_score, claimBoost, Option.elim_none]
    congr 2
    split_ifs <;> (try exact (by assumption : False).elim) <;> norm_num
  · cases fb <;> cases fc <;>
      (simp only [calculate_relevance_score, claimBoost, Option.elim_none,
        Option.elim_some]
       congr 2
       split_ifs <;> (try exact (by assumption : False).elim) <;> norm_num)

theorem claimBoost_nonneg (m : Metadata) (q : String) (f : Option Filters) :
    0 ≤ claimBoost m q f := by
  unfold claimBoost
  refine add_nonneg (add_nonneg (add_nonneg (add_nonneg (add_nonneg ?_ ?_) ?_) ?_) ?_) ?_ <;>
    (split <;> norm_num)

/-! Helper lemmas: the sync engine. -/

theorem process_product_batch_append (a b : List Product) :
    process_product_batch (a ++ b)
      = process_product_batch a ++ process_product_batch b :=
  List.filterMap_append a b _

theorem syncBatches_eq (fuel : ℕ) (l : List Product) (h : l.length ≤ fuel) :
    syncBatches fuel l = process_product_batch l := by
  induction fuel generalizing l with
  | zero =>
    cases l with
    | nil => rfl
    | cons p ps => simp at h
  | succ fuel ih =>
    cases l with
    | nil => rfl
    | cons p ps =>
      rw [show syncBatches (fuel + 1) (p :: ps)
          = process_product_batch ((p :: ps).take 100) ++
              syncBatches fuel ((p :: ps).drop 100) from rfl]
      rw [ih _ (by simp only [List.length_drop] at *; simp at h ⊢; omega)]
      rw [← process_product_batch_append, List.take_append_drop]

theorem process_eq_filter_map (l : List Product) :
    process_product_batch l
      = (l.filter (fun p => decide (create_searchable_text p ≠ ""))).map
          (fun p => ({ id := p.id, text := create_searchable_text p,
                       metadata := extract_metadata p } : IndexedDoc)) := by
  induction l with
  | nil => rfl
  | cons p ps ih =>
    by_cases hp : create_searchable_text p = ""
    · have hstrip : pyStripStr (create_searchable_text p) = "" := by rw [hp]; rfl
      simp only [process_product_batch, List.filterMap_cons, List.filter_cons] at *
      simp [hstrip, hp, ih, show pyStripStr "" = "" from rfl]
    · have hstrip : pyStripStr (create_searchable_text p) ≠ "" :=
        fun h => hp ((pyStripStr_cst_eq_empty_iff p).mp h)
      simp only [process_product_batch, List.filterMap_cons, List.filter_cons] at *
      simp [hstrip, hp, ih]

theorem sync_eq (products : List Product) :
    sync_products_to_chroma products
      = (products.filter (fun p => decide (create_searchable_text p ≠ ""))).map
          (fun p => ({ id := p.id, text := create_searchable_text p,
                       metadata := extract_metadata p } : IndexedDoc)) := by
  rw [sync_products_to_chroma, syncBatches_eq _ _ le_rfl, process_eq_filter_map]

theorem sync_length (products : List Product) :
    (sync_products_to_chroma products).length
      = (products.filter (fun p => decide (create_searchable_text p ≠ ""))).length := by
  rw [sync_eq, List.length_map]

/-! Helper lemmas: pagination. -/

theorem pySlice_ne_nil {α : Type} (l : List α) (a b : ℤ) (ha : 0 ≤ a)
    (hab : a < b) (hlen : a < (l.length : ℤ)) : pySlice l a b ≠ [] := by
  unfold pySlice
  intro hnil
  have hlen2 := congrArg List.length hnil
  simp only [List.length_drop, List.length_take, List.length_nil] at hlen2
  rw [if_neg (not_lt.mpr ha), if_neg (by omega : ¬ b < 0)] at hlen2
  omega

theorem improved_total (collectionCount : ℕ) (hits : List QueryHit)
    (catalog : List Product) (query : String) (top_k page limit : ℤ)
    (filters : Option Filters) (max_distance : ℚ)
    (hcc : collectionCount ≠ 0) (hp : 1 ≤ page) (hl : 1 ≤ limit)
    (hlt : (page - 1) * limit
      < ((rankResults hits query filters max_distance).length : ℤ)) :
    (search_products_improved collectionCount hits catalog query top_k page
        limit filters max_distance).2.2
      = (rankResults hits query filters max_distance).length := by
  have hranked_pos : 0 < (rankResults hits query filters max_distance).length := by
    have h0 : (0:ℤ) ≤ (page - 1) * limit := mul_nonneg (by omega) (by omega)
    have := lt_of_le_of_lt h0 hlt
    exact_mod_cast this
  have hhits : ¬ hits = [] := by
    intro h
    subst h
    rw [show rankResults [] query filters max_distance = [] from rfl] at hranked_pos
    simp at hranked_pos
  have hrne : ¬ rankResults hits query filters max_distance = [] := by
    intro h
    rw [h] at hranked_pos
    simp at hranked_pos
  have hpne : pySlice (rankResults hits query filters max_distance)
      ((page - 1) * limit) ((page - 1) * limit + limit) ≠ [] :=
    pySlice_ne_nil _ _ _ (mul_nonneg (by omega) (by omega)) (by omega) hlt
  simp only [search_products_improved]
  rw [if_neg hcc, if_neg hhits, if_neg hrne, if_neg hpne]

/-! Claim theorems. -/

/-- C1: `calculate_relevance_score(d, m, q, f)` equals
`min(1, max(0, 1 - d) + boost)` where `boost` is the sum of the six claim
boosts (0.30 name, 0.20 brand, 0.15 category, 0.20 set brand filter, 0.20
set category filter, 0.10 in-stock with absent defaulting to true); the
substring checks use the raw lower-cased query (the ranking pipeline
`scoreHits` passes the raw query through unchanged), and the result lies
in [0, 1].  A set filter value is rendered as present and non-empty,
matching Python truthiness. -/
theorem c1_relevance_score_formula (d : ℚ) (m : Metadata) (q : String)
    (f : Option Filters) :
    calculate_relevance_score d m q f = min 1 (max 0 (1 - d) + claimBoost m q f)
    ∧ 0 ≤ calculate_relevance_score d m q f
    ∧ calculate_relevance_score d m q f ≤ 1
    ∧ ∀ (hits : List QueryHit) (md : ℚ),
        (scoreHits hits q f md).map (fun r => r.relevance_score)
          = (hits.filter (fun h => !decide (h.distance > md))).map
              (fun h => calculate_relevance_score h.distance h.metadata q f) := by
  refine ⟨calc_eq_claimBoost d m q f, ?_, ?_, ?_⟩
  · rw [calc_eq_claimBoost]
    exact le_min (by norm_num)
      (add_nonneg (le_max_left 0 _) (claimBoost_nonneg m q f))
  · rw [calc_eq_claimBoost]
    exact min_le_left _ _
  · intro hits md
    rw [scoreHits, List.map_map]
    rfl

/-- C4: the ranking of `search_products_improved` sorts the scored
candidates in descending `relevance_score`; candidates with equal score
keep their relative input (distance-ascending) order — the ranked list
filtered to any single score value equals the scored input list under the
same filter — the ranked list is a permutation of the scored candidates,
and identical inputs produce identical ordering. -/
theorem c4_stable_ranking (hits : List QueryHit) (query : String)
    (filters : Option Filters) (max_distance : ℚ) :
    (rankResults hits query filters max_distance).Pairwise
        (fun a b => b.relevance_score ≤ a.relevance_score)
    ∧ (∀ q : ℚ,
        (rankResults hits query filters max_distance).filter
            (fun r => decide (r.relevance_score = q))
          = (scoreHits hits query filters max_distance).filter
              (fun r => decide (r.relevance_score = q)))
    ∧ (rankResults hits query filters max_distance).Perm
        (scoreHits hits query filters max_distance)
    ∧ ∀ (hits2 : List QueryHit) (query2 : String) (filters2 : Option Filters)
        (md2 : ℚ), hits = hits2 → query = query2 → filters = filters2 →
        max_distance = md2 →
        rankResults hits query filters max_distance
          = rankResults hits2 query2 filters2 md2 := by
  refine ⟨sortByScoreDesc_sorted _, fun q => filter_sortByScoreDesc q _,
    sortByScoreDesc_perm _, ?_⟩
  intro hits2 query2 filters2 md2 h1 h2 h3 h4
  rw [h1, h2, h3, h4]

/-- Witness for C4 at a concrete input, discharging the equality
hypotheses of the determinism conjunct. -/
theorem c4_stable_ranking_witness :
    rankResults [] "" none 0 = rankResults [] "" none 0 :=
  (c4_stable_ranking [] "" none 0).2.2.2 [] "" none 0 rfl rfl rfl rfl

/-- C6 counterexample: a product whose `name` is `"!!!"` (present and
non-empty, but normalizing to nothing) has empty searchable text, so
emptiness of `create_searchable_text` is not equivalent to all seven
fields being empty or absent. -/
theorem c6_counterexample :
    ¬ (create_searchable_text { name := some "!!!" } = ""
        ↔ fieldsEmptyOrAbsent { name := some "!!!" } = true) := by
  decide

/-- C6 amended: `create_searchable_text` returns the empty string iff
every weighted field has an extracted value that normalizes to the empty
string (in particular whenever every field is empty or absent, but also
for present values with no word characters). -/
theorem c6_searchable_text_empty_iff (p : Product) :
    create_searchable_text p = ""
      ↔ ∀ fw ∈ FIELD_WEIGHTS,
          preprocess_text (extract_field_value p fw.1) = "" :=
  cst_eq_empty_iff p

/-- C7 counterexample: the underscore is neither alphanumeric nor
whitespace, so the claim as stated replaces it with a space, but Python
`\w` keeps it: `preprocess_text "a_b"` is `"a_b"`, not `"a b"`. -/
theorem c7_counterexample :
    preprocess_text "a_b" ≠ normalizeClaimed "a_b" := by
  decide

/-- C7 amended: `preprocess_text` lower-cases, replaces each character
that is neither a word character (alphanumeric or underscore) nor
whitespace with a single space, collapses whitespace runs and trims; it is
total and maps the empty string to itself. -/
theorem c7_normalize_contract (s : String) :
    preprocess_text s = normalizeSpec s ∧ preprocess_text "" = "" :=
  ⟨preprocess_eq_normalizeSpec s, rfl⟩

/-- C8: `preprocess_text` is idempotent. -/
theorem c8_normalize_idempotent (s : String) :
    preprocess_text (preprocess_text s) = preprocess_text s :=
  preprocess_text_idem s

/-- C9: the legacy `search_products(q, top_k, max_distance)` returns
exactly the first two components of
`search_products_improved(q, top_k, 1, top_k, None, max_distance)`. -/
theorem c9_legacy_search_refines (collectionCount : ℕ) (hits : List QueryHit)
    (catalog : List Product) (query : String) (top_k : ℤ)
    (max_distance : ℚ) :
    search_products collectionCount hits catalog query top_k max_distance
      = ((search_products_improved collectionCount hits catalog query top_k 1
            top_k none max_distance).1,
         (search_products_improved collectionCount hits catalog query top_k 1
            top_k none max_distance).2.1) := rfl

unseal Rat.add Rat.sub Rat.mul Rat.inv in
/-- C2 counterexample: with exactly one surviving candidate, requesting
page 2 with limit 1 makes the slice empty and the function returns
`([], [], 0)`, so `totalMatched` is 0 and not the surviving-candidate
count 1. -/
theorem c2_counterexample :
    (search_products_improved 1 [{ id := "p1", distance := 1, metadata := {} }]
        [] "x" 1 2 1 none 2).2.2
      ≠ (rankResults [{ id := "p1", distance := 1, metadata := {} }]
          "x" none 2).length := by
  decide

/-- C2 amended: whenever at least one candidate survives the
`max_distance` cutoff and the requested page starts inside the ranked
list (`(page-1)*limit < totalMatched`, with `page, limit ≥ 1` and a
non-empty index), the third component equals the number of candidates
surviving the cutoff before pagination; for pages at or beyond that count
the source instead returns `([], [], 0)` (see the counterexample). -/
theorem c2_total_matched (collectionCount : ℕ) (hits : List QueryHit)
    (catalog : List Product) (query : String) (top_k page limit : ℤ)
    (filters : Option Filters) (max_distance : ℚ)
    (hcc : collectionCount ≠ 0) (hp : 1 ≤ page) (hl : 1 ≤ limit)
    (hlt : (page - 1) * limit
      < ((rankResults hits query filters max_distance).length : ℤ)) :
    (search_products_improved collectionCount hits catalog query top_k page
        limit filters max_distance).2.2
      = (rankResults hits query filters max_distance).length
    ∧ (rankResults hits query filters max_distance).length
      = (hits.filter (fun h => !decide (h.distance > max_distance))).length := by
  refine ⟨improved_total collectionCount hits catalog query top_k page limit
    filters max_distance hcc hp hl hlt, ?_⟩
  rw [rankResults, sortByScoreDesc_length, scoreHits, List.length_map]

unseal Rat.add Rat.sub Rat.mul Rat.inv in
/-- Witness for C2 at a concrete input. -/
theorem c2_total_matched_witness :
    (search_products_improved 1 [{ id := "p1", distance := 1, metadata := {} }]
        [] "x" 1 1 1 none 2).2.2
      = (rankResults [{ id := "p1", distance := 1, metadata := {} }]
          "x" none 2).length :=
  (c2_total_matched 1 [{ id := "p1", distance := 1, metadata := {} }] [] "x"
    1 1 1 none 2 (by decide) (by decide) (by decide) (by decide)).1

unseal Rat.add Rat.sub Rat.mul Rat.inv in
/-- C3 counterexample: a request with `page = 0` (violating `page >= 1`)
and a non-empty query is not rejected: no `InvalidPagination` is
signalled, the retrieval pipeline runs and returns an ordinary empty
result. -/
theorem c3_counterexample :
    ai_search 1 [{ id := "p1", distance := 1, metadata := {} }] [] "x" 0 1
        none 2
      = Except.ok ([], [], 0) := by
  rfl

/-- C3 amended: the search endpoint rejects every empty query by
signalling `InvalidQuery` before any retrieval; `page` and `limit` are
never validated — any non-empty query proceeds directly to
`search_products_improved`, page and limit included as given, and
`InvalidPagination` is never signalled. -/
theorem c3_validation (collectionCount : ℕ) (hits : List QueryHit)
    (catalog : List Product) (query : String) (page limit : ℤ)
    (filters : Option Filters) (max_distance : ℚ) :
    (query = "" →
      ai_search collectionCount hits catalog query page limit filters
          max_distance
        = Except.error SearchError.InvalidQuery)
    ∧ (query ≠ "" →
      ai_search collectionCount hits catalog query page limit filters
          max_distance
        = Except.ok (search_products_improved collectionCount hits catalog
            query (limit * 2) page limit filters max_distance)) := by
  constructor
  · intro h
    rw [ai_search, if_pos h]
  · intro h
    rw [ai_search, if_neg h]

/-- Witness for C3 at concrete inputs: the empty query is rejected, and a
non-empty query with invalid page 0 goes straight through to retrieval. -/
theorem c3_validation_witness :
    ai_search 1 [] [] "" 1 1 none 2 = Except.error SearchError.InvalidQuery
    ∧ ai_search 1 [] [] "x" 0 1 none 2
        = Except.ok (search_products_improved 1 [] [] "x" (1 * 2) 0 1 none 2) :=
  ⟨(c3_validation 1 [] [] "" 1 1 none 2).1 rfl,
   (c3_validation 1 [] [] "x" 0 1 none 2).2 (by decide)⟩

/-- C5: after an error-free `sync_products_to_chroma` run, the ids stored
in the vector index are exactly the ids of the catalog products with
non-empty searchable text (in catalog order), hence the same id sets and
equal counts. -/
theorem c5_full_sync_invariant (products : List Product) :
    (sync_products_to_chroma products).map (fun d => d.id)
      = (products.filter (fun p => decide (create_searchable_text p ≠ ""))).map
          (fun p => p.id)
    ∧ (∀ i : String,
        (∃ d ∈ sync_products_to_chroma products, d.id = i)
          ↔ ∃ p ∈ products, create_searchable_text p ≠ "" ∧ p.id = i)
    ∧ (sync_products_to_chroma products).length
        = (products.filter
            (fun p => decide (create_searchable_text p ≠ ""))).length := by
  refine ⟨?_, ?_, sync_length products⟩
  · rw [sync_eq, List.map_map]
    rfl
  · intro i
    rw [sync_eq]
    constructor
    · rintro ⟨d, hd, hdi⟩
      rw [List.mem_map] at hd
      obtain ⟨p, hp, rfl⟩ := hd
      rw [List.mem_filter] at hp
      exact ⟨p, hp.1, by simpa using hp.2, hdi⟩
    · rintro ⟨p, hp, hne, hpi⟩
      refine ⟨⟨p.id, create_searchable_text p, extract_metadata p⟩, ?_, hpi⟩
      rw [List.mem_map]
      exact ⟨p, List.mem_filter.mpr ⟨hp, by simpa using hne⟩, rfl⟩

/-- C10: `get_search_stats` reports `"synced"` iff the vector-index count
equals the total catalog count; with at least one product of empty
searchable text in the catalog, the stats after an error-free full sync
report `"out_of_sync"`. -/
theorem c10_sync_status (chroma mongo : ℕ) (products : List Product) :
    ((get_search_stats chroma mongo).sync_status = "synced" ↔ chroma = mongo)
    ∧ ((∃ p ∈ products, create_searchable_text p = "") →
        (get_search_stats (sync_products_to_chroma products).length
            products.length).sync_status = "out_of_sync") := by
  constructor
  · rw [show (get_search_stats chroma mongo).sync_status
        = (if chroma = mongo then "synced" else "out_of_sync") from rfl]
    by_cases h : chroma = mongo
    · rw [if_pos h]
      exact ⟨fun _ => h, fun _ => rfl⟩
    · rw [if_neg h]
      constructor
      · intro hc
        exact absurd hc (by decide)
      · intro hc
        exact absurd hc h
  · rintro ⟨p, hp, hpe⟩
    have hlt : (sync_products_to_chroma products).length < products.length := by
      rw [sync_length]
      exact List.length_filter_lt_length_iff_exists.mpr ⟨p, hp, by simp [hpe]⟩
    rw [show (get_search_stats (sync_products_to_chroma products).length
          products.length).sync_status
        = (if (sync_products_to_chroma products).length = products.length
           then "synced" else "out_of_sync") from rfl]
    rw [if_neg (by omega)]

/-- Witness for C10: a catalog with one fieldless product syncs to an
empty index and the stats report out of sync. -/
theorem c10_sync_status_witness :
    (get_search_stats (sync_products_to_chroma [{}]).length
        ([({} : Product)].length)).sync_status = "out_of_sync" :=
  (c10_sync_status 0 0 [{}]).2 ⟨{}, List.mem_singleton_self _, by decide⟩

end RagSpec
